import Mathlib

/-!
Verification of the coc-ai editor extension core: range translation and
edit application (src/aiedit.ts), and the debounced single-slot completion
cache (AICompletionProvider).  Buffers are modelled as lists of lines of
characters; a buffer's text is its lines each followed by a newline, which
is the document model the host (coc.nvim / vim, end-of-line at end of
buffer) exposes to LSP-style `TextEdit.replace`.
-/

/-- Split a character list at every newline character; n newlines give
n+1 pieces (the LSP / `String.split('\n')` convention). -/
def splitNl : List Char → List (List Char)
  | [] => [[]]
  | '\n' :: rest => [] :: splitNl rest
  | c :: rest =>
    match splitNl rest with
    | [] => [[c]]
    | l :: ls => (c :: l) :: ls

/-- Drop one trailing carriage return, as the `\r?` part of the
source's `split(/\r?\n/)` does for a piece that ended at a newline. -/
def chompCr (l : List Char) : List Char :=
  if l.getLast? = some '\r' then l.dropLast else l

/-- The TypeScript `text.split(/\r?\n/)`: split at newlines, removing a
carriage return immediately before each newline. -/
def splitLines (s : List Char) : List (List Char) :=
  match splitNl s with
  | [] => []
  | l :: ls => (l :: ls).dropLast.map chompCr ++ [(l :: ls).getLast (by simp)]

/-- Join lines with newline separators (`lines.join('\n')`). -/
def joinNl : List (List Char) → List Char
  | [] => []
  | [l] => l
  | l :: l2 :: ls => l ++ '\n' :: joinNl (l2 :: ls)

/-- The full text of a buffer: every line followed by a newline
(vim buffers carry an end-of-line on the last line). -/
def bufText (ls : List (List Char)) : List Char :=
  (ls.map (fun l => l ++ ['\n'])).flatten

/-- Character offset of 0-based position (line, col) in a buffer. -/
def offsetAt (ls : List (List Char)) (line col : Nat) : Nat :=
  ((ls.take line).map (fun l => l.length + 1)).sum + col

/-- `TextEdit.replace` on a buffer: splice `t` over the half-open region
from 0-based (sl, sc) to (el, ec), then re-read the lines.  The final
empty piece produced by the buffer's end-of-line is dropped. -/
def applyReplace (ls : List (List Char)) (sl sc el ec : Nat) (t : List Char) :
    List (List Char) :=
  let txt := bufText ls
  let txt2 := txt.take (offsetAt ls sl sc) ++ t ++ txt.drop (offsetAt ls el ec)
  (splitNl txt2).dropLast

/-- The text currently occupying the region from (sl, sc) to (el, ec):
what a replace over that region removes. -/
def regionText (ls : List (List Char)) (sl sc el ec : Nat) : List Char :=
  ((bufText ls).take (offsetAt ls el ec)).drop (offsetAt ls sl sc)

/-- `IEditRange.kind`: `'visual'` (char-wise) or `'line'`. -/
inductive RangeKind where
  | visual
  | line
  deriving DecidableEq

/-- `IEditRange`: host coordinates, 1-based, end inclusive. -/
structure IEditRange where
  kind : RangeKind
  startPos : Nat × Nat
  endPos : Nat × Nat
  deriving DecidableEq

/-- The `INSTRUCTIONS` header prepended to both diff views. -/
def INSTRUCTIONS : List (List Char) :=
  ["# AI Edit: <Enter> Apply, q Cancel".data,
   "# --------------------------------------------------".data,
   []]

/-- `AIEdit.apply`, the part after the views are closed: strip the
instruction header from the AI view's lines, convert the stored
`IEditRange` to a 0-based half-open region and perform the replace.
Line kind: region (start[0]-1, 0) to (end[0], 0), text joined plus one
trailing newline.  Char kind: region (start[0]-1, start[1]-1) to
(end[0]-1, end[1]), text joined with no trailing newline. -/
def applyEditTask (r : IEditRange) (aiLines : List (List Char))
    (buf : List (List Char)) : List (List Char) :=
  let lines := aiLines.drop INSTRUCTIONS.length
  match r.kind with
  | .line =>
      applyReplace buf (r.startPos.1 - 1) 0 r.endPos.1 0 (joinNl lines ++ ['\n'])
  | .visual =>
      applyReplace buf (r.startPos.1 - 1) (r.startPos.2 - 1) (r.endPos.1 - 1)
        r.endPos.2 (joinNl lines)

/-- Claim C1: for every char-wise EditRange with 1-based inclusive start
(Ls, Cs) and end (Le, Ce), apply() replaces the 0-based half-open region
from (Ls-1, Cs-1) to (Le-1, Ce), the end column unmodified; and for
start=[2,3], end=[2,5] on the line "abcdefg" the replaced substring is
exactly "cde" (replacing it by "XY" turns the line into "abXYfg"). -/
theorem charwise_apply_region :
    (∀ (ls cs le ce : Nat) (aiLines buf : List (List Char)),
      applyEditTask ⟨.visual, (ls, cs), (le, ce)⟩ aiLines buf
        = applyReplace buf (ls - 1) (cs - 1) (le - 1) ce
            (joinNl (aiLines.drop INSTRUCTIONS.length)))
    ∧ regionText ["line one".data, "abcdefg".data] 1 2 1 5 = "cde".data
    ∧ applyEditTask ⟨.visual, (2, 3), (2, 5)⟩ (INSTRUCTIONS ++ ["XY".data])
        ["line one".data, "abcdefg".data]
        = ["line one".data, "abXYfg".data] := by
  refine ⟨fun ls cs le ce aiLines buf => rfl, by decide, by decide⟩

/-- Claim C2: for every line-wise EditRange with 1-based inclusive start
line S and end line E, apply() replaces the region from (S-1, 0) to
(E, 0) with the new lines joined by newlines plus exactly one trailing
newline; for start=[5,1], end=[5,1] with original line 5 = "old" and
replacement ["new"], only index 4 is replaced, line 5 becomes "new" and
the line count stays 5. -/
theorem linewise_apply_region :
    (∀ (s cs e ce : Nat) (aiLines buf : List (List Char)),
      applyEditTask ⟨.line, (s, cs), (e, ce)⟩ aiLines buf
        = applyReplace buf (s - 1) 0 e 0
            (joinNl (aiLines.drop INSTRUCTIONS.length) ++ ['\n']))
    ∧ applyEditTask ⟨.line, (5, 1), (5, 1)⟩ (INSTRUCTIONS ++ ["new".data])
        ["l1".data, "l2".data, "l3".data, "l4".data, "old".data]
        = ["l1".data, "l2".data, "l3".data, "l4".data, "new".data]
    ∧ (applyEditTask ⟨.line, (5, 1), (5, 1)⟩ (INSTRUCTIONS ++ ["new".data])
        ["l1".data, "l2".data, "l3".data, "l4".data, "old".data]).length = 5 := by
  refine ⟨fun s cs e ce aiLines buf => rfl, by decide, by decide⟩

/-- An LSP position (`Position`): 0-based line and character. -/
structure Pos where
  line : Nat
  character : Nat
  deriving DecidableEq

/-- `ICachedCompletion`: the single cache slot's content.  The rendered
item is abstracted to a tag, since only its identity flows through the
cache logic. -/
structure ICachedCompletion where
  pos : Pos
  documentVersion : Nat
  item : Nat
  deriving DecidableEq

/-- The mutable fields of `AICompletionProvider`: the single-slot cache
and the pending debounce timer's request, if any. -/
structure ProviderState where
  cachedCompletion : Option ICachedCompletion
  pendingFetch : Option (Nat × Pos)
  deriving DecidableEq

/-- `scheduleFetch`: cancel any pending timer by overwriting the slot
with a new timer for (document, position). -/
def scheduleFetch (docId : Nat) (p : Pos) (s : ProviderState) : ProviderState :=
  { s with pendingFetch := some (docId, p) }

/-- `provideCompletionItems`: the enabled guard, then the cache check
(exact position-and-version match returns the item one-shot; a strictly
newer document version discards the stale item), then a background fetch
is scheduled and the empty list returned. -/
def provideCompletionItems (enabled : Option Bool) (docId docVersion : Nat)
    (p : Pos) (s : ProviderState) : List Nat × ProviderState :=
  if enabled = some false then ([], s)
  else
    match s.cachedCompletion with
    | some c =>
      if docVersion = c.documentVersion ∧ p.line = c.pos.line ∧
          p.character = c.pos.character then
        ([c.item], { s with cachedCompletion := none })
      else
        let s1 := if c.documentVersion < docVersion then
          { s with cachedCompletion := none } else s
        ([], scheduleFetch docId p s1)
    | none => ([], scheduleFetch docId p s)

/-- Claim C3: with the provider enabled, a cached item whose position and
document version both match the request is returned and the cache is
cleared, so a second request at the same key sees an empty cache (and
returns no item); a cached item with a strictly older version than the
document is discarded, not returned. -/
theorem completion_cache_hit_one_shot (en : Option Bool) (d v : Nat) (p : Pos)
    (c : ICachedCompletion) (s : ProviderState)
    (hen : en ≠ some false) (hc : s.cachedCompletion = some c) :
    (c.documentVersion = v ∧ c.pos = p →
      (provideCompletionItems en d v p s).1 = [c.item] ∧
      (provideCompletionItems en d v p s).2.cachedCompletion = none ∧
      (provideCompletionItems en d v p
        (provideCompletionItems en d v p s).2).1 = [] ∧
      (provideCompletionItems en d v p
        (provideCompletionItems en d v p s).2).2.cachedCompletion = none)
    ∧ (c.documentVersion < v →
      (provideCompletionItems en d v p s).1 = [] ∧
      (provideCompletionItems en d v p s).2.cachedCompletion = none) := by
  constructor
  · rintro ⟨hv, hp⟩
    subst hv hp
    simp [provideCompletionItems, hen, hc, scheduleFetch]
  · intro hlt
    have hne : ¬(v = c.documentVersion ∧ p.line = c.pos.line ∧
        p.character = c.pos.character) := by
      rintro ⟨h1, -⟩; exact absurd h1.symm (Nat.ne_of_lt hlt)
    simp [provideCompletionItems, hen, hc, hne, hlt, scheduleFetch]

/-- Witness for C3 at a concrete cache state and request. -/
theorem completion_cache_hit_one_shot_witness :
    (provideCompletionItems none 0 7 ⟨1, 2⟩
        ⟨some ⟨⟨1, 2⟩, 7, 42⟩, none⟩).1 = [42]
    ∧ (provideCompletionItems none 0 7 ⟨1, 2⟩
        ⟨some ⟨⟨1, 2⟩, 7, 42⟩, none⟩).2.cachedCompletion = none
    ∧ (provideCompletionItems none 0 7 ⟨1, 2⟩
        (provideCompletionItems none 0 7 ⟨1, 2⟩
          ⟨some ⟨⟨1, 2⟩, 7, 42⟩, none⟩).2).1 = []
    ∧ (provideCompletionItems none 0 7 ⟨1, 2⟩
        (provideCompletionItems none 0 7 ⟨1, 2⟩
          ⟨some ⟨⟨1, 2⟩, 7, 42⟩, none⟩).2).2.cachedCompletion = none
    ∧ (provideCompletionItems none 0 9 ⟨1, 2⟩
        ⟨some ⟨⟨1, 2⟩, 7, 42⟩, none⟩).1 = []
    ∧ (provideCompletionItems none 0 9 ⟨1, 2⟩
        ⟨some ⟨⟨1, 2⟩, 7, 42⟩, none⟩).2.cachedCompletion = none := by
  have h1 := (completion_cache_hit_one_shot none 0 7 ⟨1, 2⟩ ⟨⟨1, 2⟩, 7, 42⟩
    ⟨some ⟨⟨1, 2⟩, 7, 42⟩, none⟩ (by decide) rfl).1 ⟨rfl, rfl⟩
  have h2 := (completion_cache_hit_one_shot none 0 9 ⟨1, 2⟩ ⟨⟨1, 2⟩, 7, 42⟩
    ⟨some ⟨⟨1, 2⟩, 7, 42⟩, none⟩ (by decide) rfl).2 (by decide)
  exact ⟨h1.1, h1.2.1, h1.2.2.1, h1.2.2.2, h2.1, h2.2⟩

/-- Claim C10: a cached item whose version matches the document but whose
position differs from the request is neither returned nor cleared: the
cache slot is unchanged, a background fetch for the request's document
and position is scheduled, and the empty list is returned. -/
theorem completion_cache_position_mismatch (en : Option Bool) (d v : Nat)
    (p : Pos) (c : ICachedCompletion) (s : ProviderState)
    (hen : en ≠ some false) (hc : s.cachedCompletion = some c)
    (hv : c.documentVersion = v) (hp : c.pos ≠ p) :
    provideCompletionItems en d v p s
      = ([], { s with pendingFetch := some (d, p) }) := by
  subst hv
  have hpp : ¬(p.line = c.pos.line ∧ p.character = c.pos.character) := by
    rintro ⟨h2, h3⟩
    exact hp (by cases c.pos; cases p; simp_all)
  simp [provideCompletionItems, hen, hc, hpp, scheduleFetch]

/-- Witness for C10 at a concrete mismatched position. -/
theorem completion_cache_position_mismatch_witness :
    provideCompletionItems none 3 7 ⟨1, 5⟩ ⟨some ⟨⟨1, 2⟩, 7, 42⟩, none⟩
      = ([], { cachedCompletion := some ⟨⟨1, 2⟩, 7, 42⟩,
               pendingFetch := some (3, ⟨1, 5⟩) }) :=
  completion_cache_position_mismatch none 3 7 ⟨1, 5⟩ ⟨⟨1, 2⟩, 7, 42⟩
    ⟨some ⟨⟨1, 2⟩, 7, 42⟩, none⟩ (by decide) rfl rfl (by decide)

/-- The provider's timer slot together with the fetches that have run:
`pending` is the one `setTimeout` handle (fire time, document, position),
`fired` the fetches executed so far, in order. -/
structure TimerState where
  pending : Option (Nat × Nat × Pos)
  fired : List (Nat × Pos)
  deriving DecidableEq

/-- Let a due timer run: if the pending timer's fire time has been
reached by `now`, its fetch executes and the slot empties. -/
def fireDue (now : Nat) (s : TimerState) : TimerState :=
  match s.pending with
  | some (ft, d, p) => if ft ≤ now then ⟨none, s.fired ++ [(d, p)]⟩ else s
  | none => s

/-- `scheduleFetch` at wall-clock time `now`: any timer already due has
run; a still-pending timer is cancelled (`clearTimeout`) and a fresh
timer for (document, position) is installed 500 ms out (`setTimeout`). -/
def scheduleFetchAt (now docId : Nat) (p : Pos) (s : TimerState) : TimerState :=
  let s1 := fireDue now s
  ⟨some (now + 500, docId, p), s1.fired⟩

/-- Run a sequence of `scheduleFetch` calls, each tagged with its
wall-clock time. -/
def runSchedule (calls : List (Nat × Nat × Pos)) (s : TimerState) : TimerState :=
  calls.foldl (fun s c => scheduleFetchAt c.1 c.2.1 c.2.2 s) s

/-- All fetches that ever execute once time runs out past every timer. -/
def allFired (calls : List (Nat × Nat × Pos)) : List (Nat × Pos) :=
  let s := runSchedule calls ⟨none, []⟩
  s.fired ++ (match s.pending with
    | some (_, d, p) => [(d, p)]
    | none => [])

/-- Claim C4: a `scheduleFetch` call always cancels the still-pending
timer before installing its own (so at most one is ever pending, and a
timer not yet due when it is replaced never fires); three calls each
issued within the 500 ms quiescence window of the previous one produce
exactly one fetch, for the document and position of the last call. -/
theorem debounce_single_timer (t1 t2 t3 d1 d2 d3 : Nat) (p1 p2 p3 : Pos)
    (h12 : t2 < t1 + 500) (h23 : t3 < t2 + 500) :
    (∀ (now d : Nat) (p : Pos) (s : TimerState),
      (scheduleFetchAt now d p s).pending = some (now + 500, d, p))
    ∧ (∀ (now d : Nat) (p : Pos) (s : TimerState) (ft od : Nat) (op : Pos),
      s.pending = some (ft, od, op) → now < ft →
      (scheduleFetchAt now d p s).fired = s.fired)
    ∧ allFired [(t1, d1, p1), (t2, d2, p2), (t3, d3, p3)] = [(d3, p3)] := by
  refine ⟨fun now d p s => rfl, ?_, ?_⟩
  · intro now d p s ft od op hpend hlt
    simp [scheduleFetchAt, fireDue, hpend, Nat.not_le.mpr hlt]
  · have h1 : ¬ t1 + 500 ≤ t2 := Nat.not_le.mpr h12
    have h2 : ¬ t2 + 500 ≤ t3 := Nat.not_le.mpr h23
    simp [allFired, runSchedule, scheduleFetchAt, fireDue, h1, h2]

/-- Witness for C4: calls at times 0, 100, 200 yield the single fetch
(d3, p3) = (9, (4, 4)). -/
theorem debounce_single_timer_witness :
    allFired [(0, 7, ⟨1, 1⟩), (100, 8, ⟨2, 2⟩), (200, 9, ⟨4, 4⟩)]
      = [(9, ⟨4, 4⟩)] :=
  (debounce_single_timer 0 100 200 7 8 9 ⟨1, 1⟩ ⟨2, 2⟩ ⟨4, 4⟩
    (by decide) (by decide)).2.2

/-- `IChunk.type`: visible content or reasoning content. -/
inductive ChunkType where
  | content
  | reasoning
  deriving DecidableEq

/-- One streamed chunk (`IChunk`). -/
structure IChunk where
  type : ChunkType
  content : List Char
  deriving DecidableEq

/-- The editor-facing operations `AIEdit.run`/`apply`/`close` issue,
through the host: view creation, the network request, buffer writes,
cursor/scroll moves, undo breaks and tab closing. -/
inductive Effect where
  | createDiffView (origViewLines : List (List Char)) : Effect
  | sendRequest : Effect
  | setViewLines (viewLines : List (List Char)) : Effect
  | moveToLineEnd : Effect
  | setLine (linenr : Nat) (l : List Char) : Effect
  | appendAfter (linenr : Nat) (ls : List (List Char)) : Effect
  | breakUndo : Effect
  | tabClose : Effect
  deriving DecidableEq

/-- Does the effect write text into a buffer?  `tabClose`,
`createDiffView`, cursor moves and undo breaks do not. -/
def mutatesBuffer : Effect → Bool
  | .setViewLines _ => true
  | .setLine _ _ => true
  | .appendAfter _ _ => true
  | _ => false

/-- The AI-output view during an edit task: the accumulated response
text and the view's current lines. -/
structure EditViewState where
  accumulated : List Char
  viewLines : List (List Char)
  deriving DecidableEq

/-- One loop iteration of `AIEdit.run` for an edit task: a reasoning
chunk changes nothing in the view; a content chunk extends the
accumulated text, re-splits all of it into lines and rewrites the whole
view (instructions header re-prepended), then scrolls to the last
line. -/
def editChunkStep (s : EditViewState) (c : IChunk) : EditViewState × List Effect :=
  match c.type with
  | .reasoning => (s, [])
  | .content =>
    let acc := s.accumulated ++ c.content
    let view := INSTRUCTIONS ++ splitLines acc
    (⟨acc, view⟩, [Effect.setViewLines view, Effect.moveToLineEnd])

/-- The edit-task chunk loop: fold `editChunkStep` over the stream,
collecting the emitted effects in order. -/
def editChunksRun : List IChunk → EditViewState → EditViewState × List Effect
  | [], s => (s, [])
  | c :: cs, s =>
    let r := editChunkStep s c
    let rest := editChunksRun cs r.1
    (rest.1, r.2 ++ rest.2)

/-- The concatenation of all content-chunk payloads of a stream, in
order: what `accumulatedContent` holds after consuming it. -/
def contentConcat (cs : List IChunk) : List Char :=
  (cs.filterMap (fun c =>
    if c.type = ChunkType.content then some c.content else none)).flatten

theorem contentConcat_append (xs ys : List IChunk) :
    contentConcat (xs ++ ys) = contentConcat xs ++ contentConcat ys := by
  simp [contentConcat, List.filterMap_append]

theorem editChunksRun_append (xs ys : List IChunk) (s : EditViewState) :
    editChunksRun (xs ++ ys) s
      = ((editChunksRun ys (editChunksRun xs s).1).1,
         (editChunksRun xs s).2 ++ (editChunksRun ys (editChunksRun xs s).1).2) := by
  induction xs generalizing s with
  | nil => simp [editChunksRun]
  | cons c cs ih => simp [editChunksRun, ih]

theorem editChunksRun_accumulated (cs : List IChunk) (s : EditViewState) :
    (editChunksRun cs s).1.accumulated = s.accumulated ++ contentConcat cs := by
  induction cs generalizing s with
  | nil => simp [editChunksRun, contentConcat]
  | cons c cs ih =>
    cases hc : c.type <;>
      simp [editChunksRun, editChunkStep, hc, ih, contentConcat,
        List.filterMap_cons]

/-- Claim C6: for an edit task, after any stream whose last chunk is a
content chunk, the AI view holds the instructions header followed by the
re-split of the full accumulated text (a complete rewrite, not an
append), and the final two effects are that whole-view write followed by
the scroll to the last line. -/
theorem edit_view_full_rewrite (cs : List IChunk) (c : IChunk)
    (hc : c.type = ChunkType.content) :
    (editChunksRun (cs ++ [c]) ⟨[], INSTRUCTIONS⟩).1.viewLines
      = INSTRUCTIONS ++ splitLines (contentConcat (cs ++ [c]))
    ∧ ∃ pre, (editChunksRun (cs ++ [c]) ⟨[], INSTRUCTIONS⟩).2
      = pre ++ [Effect.setViewLines
          (INSTRUCTIONS ++ splitLines (contentConcat (cs ++ [c]))),
        Effect.moveToLineEnd] := by
  have hacc := editChunksRun_accumulated cs (⟨[], INSTRUCTIONS⟩ : EditViewState)
  rw [editChunksRun_append]
  have hcc : contentConcat (cs ++ [c])
      = contentConcat cs ++ c.content := by
    rw [contentConcat_append]
    simp [contentConcat, hc]
  constructor
  · simp [editChunksRun, editChunkStep, hc, hacc, hcc]
  · exact ⟨(editChunksRun cs ⟨[], INSTRUCTIONS⟩).2, by
      simp [editChunksRun, editChunkStep, hc, hacc, hcc]⟩

/-- Witness for C6: a two-chunk stream ending in the content chunk
"c\nd". -/
theorem edit_view_full_rewrite_witness :
    (editChunksRun ([⟨ChunkType.content, "ab".data⟩] ++
        [⟨ChunkType.content, "c\nd".data⟩]) ⟨[], INSTRUCTIONS⟩).1.viewLines
      = INSTRUCTIONS ++ splitLines (contentConcat
          ([⟨ChunkType.content, "ab".data⟩] ++ [⟨ChunkType.content, "c\nd".data⟩]))
    ∧ ∃ pre, (editChunksRun ([⟨ChunkType.content, "ab".data⟩] ++
        [⟨ChunkType.content, "c\nd".data⟩]) ⟨[], INSTRUCTIONS⟩).2
      = pre ++ [Effect.setViewLines
          (INSTRUCTIONS ++ splitLines (contentConcat
            ([⟨ChunkType.content, "ab".data⟩] ++
             [⟨ChunkType.content, "c\nd".data⟩]))),
        Effect.moveToLineEnd] :=
  edit_view_full_rewrite [⟨ChunkType.content, "ab".data⟩]
    ⟨ChunkType.content, "c\nd".data⟩ rfl

/-- Replace every newline with a space (`content.replace(/\n/g, ' ')`). -/
def nlToSpace (l : List Char) : List Char :=
  l.map (fun c => if c = '\n' then ' ' else c)

/-- Mutable per-task fields of a complete task while streaming: the
cursor line number, the current line's text and the reasoning block
accumulated so far. -/
structure CompleteState where
  linenr : Nat
  currLine : List Char
  reasonBlock : List Char
  deriving DecidableEq

/-- `AIEdit.append`: merge the chunk's first line into the current line,
append the remaining lines after it, advance the line counter by the
number of appended lines, move the cursor to the new last line's end and
re-read the current line. -/
def appendValue (s : CompleteState) (value : List Char) : CompleteState × List Effect :=
  let newlines := splitLines value
  let lastline := s.currLine ++ newlines.headI
  let rest := newlines.tail
  let effs := Effect.setLine s.linenr lastline ::
    (if rest = [] then [] else [Effect.appendAfter s.linenr rest]) ++
    [Effect.moveToLineEnd]
  (⟨s.linenr + rest.length, (lastline :: rest).getLast (by simp),
    s.reasonBlock⟩, effs)

/-- One loop iteration of `AIEdit.run` for a complete task: a reasoning
chunk extends the reasoning block (newlines flattened to spaces) and
rewrites the current line as a quoted placeholder; a content chunk first
breaks the undo sequence when a placeholder was showing, then appends. -/
def completeChunkStep (s : CompleteState) (c : IChunk) : CompleteState × List Effect :=
  match c.type with
  | .reasoning =>
    let rb := s.reasonBlock ++ nlToSpace c.content
    (⟨s.linenr, s.currLine, rb⟩,
      [Effect.setLine s.linenr ("\"\"\"".data ++ rb ++ "\"\"\"".data)])
  | .content =>
    let undo : List Effect :=
      if s.reasonBlock = [] then [] else [Effect.breakUndo]
    let r := appendValue ⟨s.linenr, s.currLine, []⟩ c.content
    (r.1, undo ++ r.2)

/-- The complete-task chunk loop. -/
def completeChunksRun : List IChunk → CompleteState → CompleteState × List Effect
  | [], s => (s, [])
  | c :: cs, s =>
    let r := completeChunkStep s c
    let rest := completeChunksRun cs r.1
    (rest.1, r.2 ++ rest.2)

/-- `TaskKind`: the constructor argument of `AIEdit`. -/
inductive TaskKind where
  | edit
  | complete
  deriving DecidableEq

/-- The effect trace of `AIEdit.run`: an edit task without a range
returns before doing anything; with a range it creates the linked diff
views (both holding the instructions header, the original view also the
selection), sends the request and streams into the AI view; a complete
task sends the request, streams at the cursor and finally breaks the
undo sequence. -/
def runTrace (task : TaskKind) (range : Option IEditRange)
    (selection : List Char) (linenr : Nat) (currLine : List Char)
    (chunks : List IChunk) : List Effect :=
  match task with
  | .edit =>
    match range with
    | none => []
    | some _ =>
      Effect.createDiffView (INSTRUCTIONS ++ splitLines selection) ::
        Effect.sendRequest ::
        (editChunksRun chunks ⟨[], INSTRUCTIONS⟩).2
  | .complete =>
    Effect.sendRequest ::
      (completeChunksRun chunks ⟨linenr, currLine, []⟩).2 ++ [Effect.breakUndo]

/-- Claim C9: `AIEdit.run` on an edit task with no EditRange supplied
returns immediately — its trace is empty, so no diff view is created, no
request sent and no buffer mutated — whereas with a range supplied the
trace begins with the diff-view creation. -/
theorem run_edit_no_range_early_return :
    (∀ (selection : List Char) (linenr : Nat) (currLine : List Char)
      (chunks : List IChunk),
      runTrace TaskKind.edit none selection linenr currLine chunks = [])
    ∧ (∀ (r : IEditRange) (selection : List Char) (linenr : Nat)
      (currLine : List Char) (chunks : List IChunk),
      (runTrace TaskKind.edit (some r) selection linenr currLine chunks).head?
        = some (Effect.createDiffView (INSTRUCTIONS ++ splitLines selection))) :=
  ⟨fun _ _ _ _ => rfl, fun _ _ _ _ _ => rfl⟩

/-- The fields of `AIEdit` that `close` touches or guards on. -/
structure AIEditState where
  task : TaskKind
  bufnr : Int
  linenr : Int
  originalBufnr : Int
  aiBufnr : Int
  origTempBufnr : Int
  deriving DecidableEq

/-- `AIEdit.close`: a no-op for complete tasks; for edit tasks it closes
the diff tab (errors ignored) and resets both view buffer numbers. -/
def close (s : AIEditState) : AIEditState :=
  if s.task ≠ TaskKind.edit then s
  else { s with aiBufnr := -1, origTempBufnr := -1 }

/-- The host operations `close` issues: only the tab close, and only
for an edit task. -/
def closeEffects (s : AIEditState) : List Effect :=
  if s.task ≠ TaskKind.edit then [] else [Effect.tabClose]

/-- Claim C8: `close()` is idempotent — a second call leaves the task
state exactly as after the first — and none of the operations it issues
writes to any buffer, so the original buffer is never mutated. -/
theorem close_idempotent_no_buffer_mutation :
    (∀ s : AIEditState, close (close s) = close s)
    ∧ (∀ s : AIEditState,
        (closeEffects s).all (fun e => !(mutatesBuffer e)) = true) := by
  constructor
  · intro s
    by_cases h : s.task = TaskKind.edit <;> simp [close, h]
  · intro s
    by_cases h : s.task = TaskKind.edit <;>
      simp [closeEffects, h, mutatesBuffer]

/-- The character class of the prefix-word regex `/["'\w$]+$/`. -/
def isPrefixWordChar (c : Char) : Bool :=
  c.isAlphanum || c = '_' || c = '$' || c = '"' || c = '\''

/-- The word-prefix immediately before the cursor: the longest suffix of
the line text up to the cursor matched by `/["'\w$]+$/`. -/
def prefixWordOf (lineText : List Char) : List Char :=
  (lineText.reverse.takeWhile isPrefixWordChar).reverse

/-- The rendered completion item built by `fetchCompletion` from the
model's text: label from the first line (ellipsized past 30 chars), a
text edit replacing the word-prefix before the cursor. -/
structure CompletionItemR where
  label : List Char
  insertText : List Char
  editStartCharacter : Nat
  editEndCharacter : Nat
  editNewText : List Char
  filterText : List Char
  preselect : Bool
  deriving DecidableEq

/-- Build the completion item as `fetchCompletion` does on success. -/
def mkCompletionItem (completionText lineText : List Char) (p : Pos) :
    CompletionItemR :=
  let firstLine := (splitNl completionText).headI
  let shortLabel :=
    if 30 < firstLine.length then firstLine.take 30 ++ "...".data else firstLine
  let pw := prefixWordOf lineText
  { label := "✨ ".data ++ shortLabel
    insertText := completionText
    editStartCharacter := p.character - pw.length
    editEndCharacter := p.character
    editNewText := pw ++ completionText
    filterText := pw ++ completionText
    preselect := true }

/-- The cache slot as `fetchCompletion` fills it: position, document
version and the rendered item. -/
structure CachedCompletionR where
  pos : Pos
  documentVersion : Nat
  item : CompletionItemR
  deriving DecidableEq

/-- The outcome of one background fetch: the cache slot afterwards and
whether the host's show-suggestions action was triggered.  The fetch
issues no buffer-writing operation on any path. -/
structure FetchOutcome where
  cache : Option CachedCompletionR
  triggered : Bool
  deriving DecidableEq

/-- `fetchCompletion`: bail out silently when the document is gone, when
the editor has left insert mode, when the request errors (network or
timeout) and when the result is blank; otherwise cache the rendered item
under the request's position and document version and, if still in
insert mode, trigger the suggestion popup.  `mode1` is the mode read
when the timer fires, `mode2` the mode re-read after the response. -/
def fetchCompletion (docExists : Bool) (mode1 : List Char)
    (execResult : Except Unit (List Char)) (mode2 : List Char)
    (lineText : List Char) (p : Pos) (docVersion : Nat)
    (cache0 : Option CachedCompletionR) : FetchOutcome :=
  if docExists = false then ⟨cache0, false⟩
  else if mode1 ≠ "i".data then ⟨cache0, false⟩
  else
    match execResult with
    | .error _ => ⟨cache0, false⟩
    | .ok text =>
      if text.all Char.isWhitespace then ⟨cache0, false⟩
      else ⟨some ⟨p, docVersion, mkCompletionItem text lineText p⟩,
        mode2 = "i".data⟩

/-- Claim C7: a background completion fetch fails silently — when the
editor is no longer in insert mode when the timer fires, or when the
request errors — leaving the cached-completion slot exactly as it was,
triggering no suggestion display, and (the model issuing no
buffer-writing operation anywhere) mutating no buffer. -/
theorem fetch_failure_silent (docExists : Bool)
    (mode1 mode2 lineText : List Char) (execResult : Except Unit (List Char))
    (p : Pos) (v : Nat) (cache0 : Option CachedCompletionR) :
    (mode1 ≠ "i".data →
      fetchCompletion docExists mode1 execResult mode2 lineText p v cache0
        = ⟨cache0, false⟩)
    ∧ (∀ e, execResult = Except.error e →
      fetchCompletion docExists mode1 execResult mode2 lineText p v cache0
        = ⟨cache0, false⟩) := by
  constructor
  · intro hm
    by_cases hd : docExists = false <;> simp [fetchCompletion, hd, hm]
  · rintro e rfl
    by_cases hd : docExists = false
    · simp [fetchCompletion, hd]
    · by_cases hm : mode1 = "i".data <;> simp [fetchCompletion, hd, hm]

/-- Witness for C7: normal mode at timer fire, and a network error in
insert mode. -/
theorem fetch_failure_silent_witness :
    fetchCompletion true "n".data (Except.error ()) "i".data "ab".data
        ⟨0, 2⟩ 3 none = ⟨none, false⟩
    ∧ fetchCompletion true "i".data (Except.error ()) "i".data "ab".data
        ⟨0, 2⟩ 3 none = ⟨none, false⟩ :=
  ⟨(fetch_failure_silent true "n".data "i".data "ab".data (Except.error ())
      ⟨0, 2⟩ 3 none).1 (by decide),
   (fetch_failure_silent true "i".data "i".data "ab".data (Except.error ())
      ⟨0, 2⟩ 3 none).2 () rfl⟩

/-- The tab-completion configuration fields `buildContext` reads, each
possibly unset. -/
structure TabConfig where
  maxContextSize : Option Nat
  includeOpenBuffers : Option Bool
  deriving DecidableEq

/-- `config.maxContextSize || 4096`: unset (and the falsy 0) fall back
to 4096. -/
def effMaxContext (c : TabConfig) : Nat :=
  match c.maxContextSize with
  | some n => if n = 0 then 4096 else n
  | none => 4096

/-- `Math.floor(maxTotalChars * 0.7)`: the share of the budget reserved
for the current file. -/
def currentFileBudget (c : TabConfig) : Nat :=
  effMaxContext c * 7 / 10

/-- `maxTotalChars - currentFileBudget`: the budget left for other open
buffers. -/
def otherFilesBudget (c : TabConfig) : Nat :=
  effMaxContext c - currentFileBudget c

/-- The cursor-centered window of the current file: up to half the
budget before the cursor offset and up to half after, clipped to the
document's bounds; returns (text before cursor, text after cursor). -/
def currentWindow (text : List Char) (offset budget : Nat) :
    List Char × List Char :=
  let half := budget / 2
  let start := offset - half
  let stop := min text.length (offset + half)
  ((text.take offset).drop start, (text.take stop).drop offset)

/-- An open buffer other than the current one, as `buildContext` sees
it: uri, language, workspace-relative path and full text. -/
structure OtherDoc where
  uri : Nat
  languageId : Nat
  path : List Char
  content : List Char
  deriving DecidableEq

/-- `Math.min(1000, Math.floor(otherFilesBudget / (relevantDocs.length
|| 1)))`: the per-buffer snippet size. -/
def snippetSize (budget n : Nat) : Nat :=
  min 1000 (budget / (if n = 0 then 1 else n))

/-- The snippet loop of `buildContext`: stop once the used character
count reaches the budget, otherwise take the snippet-sized head of each
buffer, paired with its path. -/
def otherSnippetsGo (budget n : Nat) :
    List OtherDoc → Nat → List (List Char × List Char)
  | [], _ => []
  | d :: ds, used =>
    if budget ≤ used then []
    else
      let s := d.content.take (snippetSize budget n)
      (d.path, s) :: otherSnippetsGo budget n ds (used + s.length)

/-- The open buffers considered: different uri, same language as the
current file. -/
def relevantDocs (curUri curLang : Nat) (docs : List OtherDoc) :
    List OtherDoc :=
  docs.filter (fun d => d.uri ≠ curUri ∧ d.languageId = curLang)

/-- The other-buffer snippets of `buildContext`, collected when open
buffers are included and budget remains. -/
def buildOtherSnippets (c : TabConfig) (curUri curLang : Nat)
    (docs : List OtherDoc) : List (List Char × List Char) :=
  if c.includeOpenBuffers.getD true = true ∧ 0 < otherFilesBudget c then
    otherSnippetsGo (otherFilesBudget c)
      (relevantDocs curUri curLang docs).length
      (relevantDocs curUri curLang docs) 0
  else []

/-- `buildContext`: the full prompt — other-buffer snippet blocks, each
with its file-path annotation, prepended to the current file's
cursor-centered window block. -/
def buildContext (c : TabConfig) (curUri curLang : Nat)
    (relPath text : List Char) (offset : Nat) (docs : List OtherDoc) :
    List Char :=
  let w := currentWindow text offset (currentFileBudget c)
  let mainBlock := "\n// File: ".data ++ relPath ++ " (Current)\n".data ++
    w.1 ++ "<CURSOR>".data ++ w.2
  let blocks := (buildOtherSnippets c curUri curLang docs).map
    (fun ps => "\n// File: ".data ++ ps.1 ++ ['\n'] ++ ps.2 ++ "\n...\n".data)
  let otherContext := blocks.flatten
  if otherContext = [] then mainBlock else otherContext ++ '\n' :: mainBlock

/-- Counterexample to claim C5 as stated: with the default 4096-char
budget, the remainder after the current file's share is 1229, yet the
single other open buffer (2000 chars of content, same language) is
truncated to 1000 characters, not to its even share of 1229 — the
remainder is not split evenly, it is additionally capped at 1000. -/
theorem context_even_split_counterexample :
    ((buildOtherSnippets ⟨some 4096, some true⟩ 0 0
        [⟨1, 0, "other.ts".data, List.replicate 2000 'a'⟩]).map
      (fun ps => ps.2.length)) = [1000]
    ∧ otherFilesBudget ⟨some 4096, some true⟩ = 1229
    ∧ (1000 : Nat) ≠ 1229 := by
  refine ⟨?_, by decide, by decide⟩
  have h : ∀ content : List Char,
      relevantDocs 0 0 [⟨1, 0, "other.ts".data, content⟩]
        = [⟨1, 0, "other.ts".data, content⟩] := by
    intro content
    simp [relevantDocs]
  have hb : otherFilesBudget ⟨some 4096, some true⟩ = 1229 := by decide
  simp only [buildOtherSnippets, h, hb, List.length_cons, List.length_nil,
    Option.getD_some]
  rw [if_pos (by norm_num)]
  simp only [otherSnippetsGo, Nat.zero_add]
  rw [if_neg (by norm_num)]
  have hs : snippetSize 1229 (0 + 1) = 1000 := by decide
  rw [hs, List.take_replicate]
  simp only [List.map_cons, List.map_nil, List.length_replicate]
  decide

theorem otherSnippetsGo_even (b n : Nat) (hb : 0 < b) (hn : 0 < n) :
    ∀ (ds : List OtherDoc) (used : Nat), ds.length ≤ n →
      used ≤ (n - ds.length) * snippetSize b n →
      otherSnippetsGo b n ds used
        = ds.map (fun d => (d.path, d.content.take (snippetSize b n))) := by
  intro ds
  induction ds with
  | nil => intro used _ _; rfl
  | cons d ds ih =>
    intro used hlen hused
    have hn0 : n ≠ 0 := Nat.pos_iff_ne_zero.mp hn
    have hsz : snippetSize b n ≤ b / n := by
      unfold snippetSize
      rw [if_neg hn0]
      exact min_le_right _ _
    have hused1 : used ≤ (n - (ds.length + 1)) * snippetSize b n := by
      simpa using hused
    have hlen1 : ds.length + 1 ≤ n := by simpa using hlen
    have hub : used < b := by
      rcases Nat.eq_zero_or_pos (b / n) with h0 | h1
      · have hsz0 : snippetSize b n = 0 := Nat.le_zero.mp (h0 ▸ hsz)
        rw [hsz0, Nat.mul_zero] at hused1
        exact lt_of_le_of_lt (Nat.le_zero.mp hused1 ▸ le_rfl) hb
      · have h2 : (n - (ds.length + 1)) * snippetSize b n
            ≤ (n - 1) * (b / n) :=
          Nat.mul_le_mul (Nat.sub_le_sub_left (by omega) n) hsz
        have h3 : (n - 1) * (b / n) + b / n = n * (b / n) := by
          have hn1 : n - 1 + 1 = n := Nat.succ_pred_eq_of_pos hn
          calc (n - 1) * (b / n) + b / n = (n - 1 + 1) * (b / n) := by ring
            _ = n * (b / n) := by rw [hn1]
        have h4 : n * (b / n) ≤ b := by
          rw [Nat.mul_comm]
          exact Nat.div_mul_le_self b n
        calc used ≤ (n - (ds.length + 1)) * snippetSize b n := hused1
          _ ≤ (n - 1) * (b / n) := h2
          _ < (n - 1) * (b / n) + b / n := Nat.lt_add_of_pos_right h1
          _ = n * (b / n) := h3
          _ ≤ b := h4
    simp only [otherSnippetsGo]
    rw [if_neg (Nat.not_le.mpr hub)]
    have htail :
        otherSnippetsGo b n ds (used + (d.content.take (snippetSize b n)).length)
          = ds.map (fun d => (d.path, d.content.take (snippetSize b n))) := by
      apply ih
      · omega
      · have hsl : (d.content.take (snippetSize b n)).length
            ≤ snippetSize b n := by
          simp [List.length_take]
        have hstep : (n - (ds.length + 1)) + 1 = n - ds.length := by omega
        calc used + (d.content.take (snippetSize b n)).length
            ≤ (n - (ds.length + 1)) * snippetSize b n + snippetSize b n :=
              Nat.add_le_add hused1 hsl
          _ = ((n - (ds.length + 1)) + 1) * snippetSize b n := by ring
          _ = (n - ds.length) * snippetSize b n := by rw [hstep]
    rw [htail, List.map_cons]

/-- Claim C5 (amended): context assembly reserves ⌊70%⌋ of the character
budget for a cursor-centered window in the current file — ⌊share/2⌋
characters before the cursor and ⌊share/2⌋ after, clipped to the
document's bounds — and gives each other open buffer of the current
file's language a slice of min(1000, ⌊remainder / n⌋) characters of its
head (the even share additionally capped at 1000 characters), paired
with its file-path annotation. -/
theorem context_budget_amended (c : TabConfig) (text : List Char)
    (offset curUri curLang : Nat) (docs : List OtherDoc)
    (hoff : offset ≤ text.length)
    (hinc : c.includeOpenBuffers.getD true = true)
    (hrel : 0 < (relevantDocs curUri curLang docs).length)
    (hbud : 0 < otherFilesBudget c) :
    (currentWindow text offset (currentFileBudget c)).1.length
        = min (currentFileBudget c / 2) offset
    ∧ (currentWindow text offset (currentFileBudget c)).2.length
        = min (currentFileBudget c / 2) (text.length - offset)
    ∧ snippetSize (otherFilesBudget c) (relevantDocs curUri curLang docs).length
        = min 1000 (otherFilesBudget c / (relevantDocs curUri curLang docs).length)
    ∧ buildOtherSnippets c curUri curLang docs
        = (relevantDocs curUri curLang docs).map
            (fun d => (d.path, d.content.take
              (snippetSize (otherFilesBudget c)
                (relevantDocs curUri curLang docs).length))) := by
  refine ⟨?_, ?_, ?_, ?_⟩
  · simp only [currentWindow, List.length_drop, List.length_take]
    omega
  · simp only [currentWindow, List.length_drop, List.length_take]
    omega
  · unfold snippetSize
    rw [if_neg (Nat.pos_iff_ne_zero.mp hrel)]
  · unfold buildOtherSnippets
    rw [if_pos ⟨hinc, hbud⟩]
    exact otherSnippetsGo_even (otherFilesBudget c) _ hbud hrel _ 0 le_rfl
      (Nat.zero_le _)

/-- Witness for the amended C5 at a 20-char budget, a 10-char document
with the cursor at offset 5 and one other 4-char buffer of the same
language. -/
theorem context_budget_amended_witness :
    (currentWindow "abcdefghij".data 5
        (currentFileBudget ⟨some 20, some true⟩)).1.length
      = min (currentFileBudget ⟨some 20, some true⟩ / 2) 5
    ∧ (currentWindow "abcdefghij".data 5
        (currentFileBudget ⟨some 20, some true⟩)).2.length
      = min (currentFileBudget ⟨some 20, some true⟩ / 2)
          ("abcdefghij".data.length - 5)
    ∧ snippetSize (otherFilesBudget ⟨some 20, some true⟩)
        (relevantDocs 0 0 [⟨1, 0, "o.ts".data, "xyzw".data⟩]).length
      = min 1000 (otherFilesBudget ⟨some 20, some true⟩ /
          (relevantDocs 0 0 [⟨1, 0, "o.ts".data, "xyzw".data⟩]).length)
    ∧ buildOtherSnippets ⟨some 20, some true⟩ 0 0
        [⟨1, 0, "o.ts".data, "xyzw".data⟩]
      = (relevantDocs 0 0 [⟨1, 0, "o.ts".data, "xyzw".data⟩]).map
          (fun d => (d.path, d.content.take
            (snippetSize (otherFilesBudget ⟨some 20, some true⟩)
              (relevantDocs 0 0 [⟨1, 0, "o.ts".data, "xyzw".data⟩]).length))) :=
  context_budget_amended ⟨some 20, some true⟩ "abcdefghij".data 5 0 0
    [⟨1, 0, "o.ts".data, "xyzw".data⟩] (by decide) (by decide) (by decide)
    (by decide)
